import Mathlib

/-!
Shallow embedding of `src/main.py` of the `astrbot_plugin_logger` repository:
the log-level enumeration (`LogLevel`), log slicing (`_slice_logs`),
log formatting (`_format_log`), level filtering (`_filter_logs_by_level`)
and keyword search (the matching step of `on_log_search`), together with
theorems settling the specification claims about them.

Python strings are modelled as Lean `String`s; Python `dict` log records as
a structure with optional `level` and `data` fields (a missing dict key is
`none`).  Python string helpers (`strip`, `rstrip`, `isdigit`, `upper`,
`lower`, `in`, slicing) are modelled character-wise for the ASCII range the
program manipulates.  The ANSI regex substitution
`re.sub(r"\x1b\[[0-9;]*m", "", text)` is modelled twice: as an executable
left-to-right scanner (`stripAnsi`, used by `formatLog`) and as a direct
recursive reading of the regex (`ansiSubRef`); the two are proved equal
(`stripAnsi_eq_ansiSubRef`).
-/

namespace AstrbotLogger

/-- The whitespace characters stripped by Python `str.strip` / `str.rstrip`
(ASCII range). -/
def pyIsSpace (c : Char) : Bool :=
  c == ' ' || c == '\t' || c == '\n' || c == '\r' || c == '\x0b' || c == '\x0c'

/-- Python `s.strip()`: remove leading and trailing whitespace. -/
def pyStrip (s : String) : String :=
  String.mk (((s.data.dropWhile pyIsSpace).reverse.dropWhile pyIsSpace).reverse)

/-- Python `s.rstrip()`: remove trailing whitespace. -/
def pyRstrip (s : String) : String :=
  String.mk ((s.data.reverse.dropWhile pyIsSpace).reverse)

/-- Python `s.isdigit()` (ASCII digits): non-empty and all characters digits. -/
def isDigitStr (s : String) : Bool :=
  !s.data.isEmpty && s.data.all Char.isDigit

/-- Python `int(s)` on a digit string. -/
def strToNat (s : String) : Nat :=
  s.data.foldl (fun n c => n * 10 + (c.toNat - 48)) 0

/-- Python `s.upper()` (ASCII). -/
def pyUpper (s : String) : String :=
  String.mk (s.data.map Char.toUpper)

/-- Python `s.lower()` (ASCII). -/
def pyLower (s : String) : String :=
  String.mk (s.data.map Char.toLower)

/-- Python `needle in hay` for strings: `needle` occurs as a contiguous
substring of `hay`. -/
def containsSub (needle : List Char) : List Char → Bool
  | [] => needle.isEmpty
  | c :: cs => needle.isPrefixOf (c :: cs) || containsSub needle cs

/-- Python `s.split("-", 1)`: the part before the first `-` and the part
after it (the whole string and `""` when no `-` occurs). -/
def splitOnceDash (s : String) : String × String :=
  (String.mk (s.data.takeWhile (fun c => c != '-')),
   String.mk ((s.data.dropWhile (fun c => c != '-')).drop 1))

/-- Python `logs[-n:]` for a non-negative `n`: the whole list when `n = 0`
(since `-0 == 0`), otherwise the last `n` elements. -/
def pyNegSlice (logs : List α) (n : Nat) : List α :=
  if n = 0 then logs else logs.drop (logs.length - n)

/-- One log record: a Python dict whose `level` and `data` keys may be
missing. -/
structure LogRec where
  level : Option String
  data : Option String
deriving DecidableEq, Repr

/-- The `LogLevel` enumeration of `src/main.py`. -/
inductive LogLevel where
  | all
  | debug
  | info
  | warning
  | error
deriving DecidableEq, Repr

/-- The `value` of each enumeration member. -/
def LogLevel.value : LogLevel → String
  | .all => "ALL"
  | .debug => "DEBUG"
  | .info => "INFO"
  | .warning => "WARNING"
  | .error => "ERROR"

/-- Iteration order of `for item in cls` over the enumeration. -/
def LogLevel.members : List LogLevel :=
  [.all, .debug, .info, .warning, .error]

/-- `LogLevel.from_input`: empty input gives `ALL`; otherwise the input is
uppercased and looked up among the members; no match gives `none`. -/
def LogLevel.fromInput (value : String) : Option LogLevel :=
  if value = "" then
    some .all
  else
    let v := pyUpper value
    LogLevel.members.find? (fun item => item.value == v)

/-- `LoggerPlugin._slice_logs`: empty spec gives `logs[-default_limit:]`;
otherwise the spec is stripped; a digit spec `N` gives `logs[-N:]`; a spec
containing `-` is split at the first `-` into `left`/`right` and gives
`logs[start:end]` with `start = int(left) - 1` if `left` is a digit string
else `0` (then clamped below by `0`) and `end = int(right)` if `right` is a
digit string else `total` (then clamped above by `total`); anything else
falls back to `logs[-default_limit:]`. -/
def sliceLogs (logs : List α) (limit : String) (defaultLimit : Nat) : List α :=
  let total := logs.length
  if limit = "" then
    pyNegSlice logs defaultLimit
  else
    let l := pyStrip limit
    if isDigitStr l then
      pyNegSlice logs (strToNat l)
    else if l.data.contains '-' then
      let lr := splitOnceDash l
      let start : Int := if isDigitStr lr.1 then (strToNat lr.1 : Int) - 1 else 0
      let stop : Int := if isDigitStr lr.2 then (strToNat lr.2 : Int) else (total : Int)
      let start := max start 0
      let stop := min stop (total : Int)
      (logs.drop start.toNat).take (stop.toNat - start.toNat)
    else
      pyNegSlice logs defaultLimit

/-- The character class `[0-9;]` of the ANSI pattern. -/
def ansiClass (c : Char) : Bool := c.isDigit || c == ';'

/-- Scanner state while removing ANSI sequences: outside any candidate
match, after an `ESC`, or after `ESC [` with the class characters read so
far (in reverse). -/
inductive AnsiState where
  | normal
  | esc
  | body (acc : List Char)

/-- Left-to-right scanner for `re.sub(r"\x1b\[[0-9;]*m", "", _)`: on `ESC [`
it consumes the maximal run of `[0-9;]`; a following `m` completes a match
(dropped), anything else aborts it, emits the consumed characters and
rescans from the character that broke the run (which may itself start a new
match). -/
def ansiRun : AnsiState → List Char → List Char
  | .normal, [] => []
  | .normal, c :: cs => if c = '\x1b' then ansiRun .esc cs else c :: ansiRun .normal cs
  | .esc, [] => ['\x1b']
  | .esc, c :: cs =>
      if c = '[' then ansiRun (.body []) cs
      else if c = '\x1b' then '\x1b' :: ansiRun .esc cs
      else '\x1b' :: c :: ansiRun .normal cs
  | .body acc, [] => '\x1b' :: '[' :: acc.reverse
  | .body acc, c :: cs =>
      if ansiClass c then ansiRun (.body (c :: acc)) cs
      else if c = 'm' then ansiRun .normal cs
      else if c = '\x1b' then '\x1b' :: '[' :: acc.reverse ++ ansiRun .esc cs
      else '\x1b' :: '[' :: acc.reverse ++ c :: ansiRun .normal cs

/-- `re.sub(r"\x1b\[[0-9;]*m", "", _)` on a character list. -/
def stripAnsi (l : List Char) : List Char := ansiRun .normal l

/-- Reference reading of the same substitution, following the regex
directly: at `ESC [` take the maximal `[0-9;]*` run; if it is followed by
`m` the whole match is removed, otherwise the `ESC [` is kept and scanning
resumes inside; proved equal to `stripAnsi` below. -/
def ansiSubRef : List Char → List Char
  | [] => []
  | '\x1b' :: '[' :: rest =>
      match hb : rest.dropWhile ansiClass with
      | 'm' :: rest2 => ansiSubRef rest2
      | _ => '\x1b' :: '[' :: ansiSubRef rest
  | ['\x1b'] => ['\x1b']
  | '\x1b' :: c :: cs => '\x1b' :: ansiSubRef (c :: cs)
  | c :: cs => c :: ansiSubRef cs
termination_by l => l.length
decreasing_by
  · have hle : (rest.dropWhile ansiClass).length ≤ rest.length :=
      (List.dropWhile_suffix _).length_le
    rw [hb] at hle
    simp only [List.length_cons] at hle ⊢
    omega
  · simp only [List.length_cons]
    omega
  · simp only [List.length_cons]
    omega
  · simp only [List.length_cons]
    omega

/-- `stripAnsi` lifted to strings. -/
def stripAnsiStr (s : String) : String :=
  String.mk (stripAnsi s.data)

/-- `LoggerPlugin._format_log`: strip ANSI sequences from `data` (missing
key: `""`), strip trailing whitespace, then dispatch on the uppercased
`level` (missing key: `"UNKNOWN"`). -/
def formatLog (log : LogRec) : String :=
  let text := pyRstrip (stripAnsiStr (log.data.getD ""))
  let level := pyUpper (log.level.getD "UNKNOWN")
  if level = LogLevel.error.value then "```\n" ++ text ++ "\n```"
  else if level = LogLevel.warning.value then "**" ++ text ++ "**"
  else if level = LogLevel.debug.value then text
  else "> " ++ text

/-- `LoggerPlugin._filter_logs_by_level`. -/
def filterLogsByLevel (logs : List LogRec) (level : LogLevel) : List LogRec :=
  if level = LogLevel.all then logs
  else logs.filter (fun log => log.level == some level.value)

/-- The matching step of `on_log_search`: keep the records whose raw `data`
(missing key: `""`), lowercased, contains the lowercased keyword. -/
def searchLogs (logs : List LogRec) (keyword : String) : List LogRec :=
  let keywordLower := pyLower keyword
  logs.filter (fun log => containsSub keywordLower.data (pyLower (log.data.getD "")).data)

/-! ### Helper lemmas -/

theorem ansiSubRef_nil : ansiSubRef [] = [] := by
  simp [ansiSubRef]

theorem ansiSubRef_esc_nil : ansiSubRef ['\x1b'] = ['\x1b'] := by
  simp [ansiSubRef]

theorem ansiSubRef_esc_cons_ne (c : Char) (cs : List Char) (h : ¬ c = '[') :
    ansiSubRef ('\x1b' :: c :: cs) = '\x1b' :: ansiSubRef (c :: cs) := by
  simp [ansiSubRef, h]

theorem ansiSubRef_cons_ne (c : Char) (cs : List Char) (h : ¬ c = '\x1b') :
    ansiSubRef (c :: cs) = c :: ansiSubRef cs := by
  simp [ansiSubRef, h]

theorem ansiSubRef_bracket_m (rest r2 : List Char)
    (h : rest.dropWhile ansiClass = 'm' :: r2) :
    ansiSubRef ('\x1b' :: '[' :: rest) = ansiSubRef r2 := by
  conv_lhs => rw [ansiSubRef.eq_def]
  simp only []
  split
  · rename_i rest2 heq
    have h2 : 'm' :: rest2 = 'm' :: r2 := heq.symm.trans h
    rw [(List.cons.inj h2).2]
  · rename_i hne
    exact (hne r2 h).elim

theorem ansiSubRef_bracket_fail (rest : List Char)
    (h : ∀ r2, rest.dropWhile ansiClass ≠ 'm' :: r2) :
    ansiSubRef ('\x1b' :: '[' :: rest) = '\x1b' :: '[' :: ansiSubRef rest := by
  simp only [ansiSubRef]

theorem ansiClass_ne_esc {c : Char} (h : ansiClass c = true) : ¬ c = '\x1b' := by
  intro he
  subst he
  exact absurd h (by decide)

theorem ansiSubRef_append_of_ne (d l : List Char) (hd : ∀ c ∈ d, ¬ c = '\x1b') :
    ansiSubRef (d ++ l) = d ++ ansiSubRef l := by
  induction d with
  | nil => rfl
  | cons c d ih =>
    simp only [List.cons_append]
    rw [ansiSubRef_cons_ne c _ (hd c (by simp))]
    rw [ih (fun x hx => hd x (by simp [hx]))]

theorem dropWhile_append_of_all (p : Char → Bool) (d l : List Char)
    (hd : ∀ c ∈ d, p c = true) :
    List.dropWhile p (d ++ l) = List.dropWhile p l := by
  induction d with
  | nil => rfl
  | cons c d ih =>
    simp only [List.cons_append]
    rw [List.dropWhile_cons_of_pos (hd c (by simp))]
    exact ih (fun x hx => hd x (by simp [hx]))

/-- The scanner `ansiRun` agrees, from each of its states, with the direct
regex reading `ansiSubRef` applied to the pending characters. -/
theorem ansiRun_agrees :
    ∀ (n : Nat) (l : List Char), l.length ≤ n →
      (ansiRun .normal l = ansiSubRef l) ∧
      (ansiRun .esc l = ansiSubRef ('\x1b' :: l)) ∧
      (∀ acc, (∀ c ∈ acc, ansiClass c = true) →
        ansiRun (.body acc) l = ansiSubRef ('\x1b' :: '[' :: (acc.reverse ++ l))) := by
  intro n
  induction n with
  | zero =>
    intro l hl
    have hnil : l = [] := List.eq_nil_of_length_eq_zero (Nat.le_zero.mp hl)
    subst hnil
    refine ⟨ansiSubRef_nil.symm, ansiSubRef_esc_nil.symm, ?_⟩
    intro acc hacc
    show '\x1b' :: '[' :: acc.reverse = _
    rw [List.append_nil]
    rw [ansiSubRef_bracket_fail _ (by
      rw [List.dropWhile_eq_nil_iff.mpr (fun x hx => hacc x (List.mem_reverse.mp hx))]
      intro r2 h
      exact List.noConfusion h)]
    have := ansiSubRef_append_of_ne acc.reverse []
      (fun x hx => ansiClass_ne_esc (hacc x (List.mem_reverse.mp hx)))
    rw [List.append_nil] at this
    rw [this, ansiSubRef_nil, List.append_nil]
  | succ n ih =>
    intro l hl
    cases l with
    | nil =>
      refine ⟨ansiSubRef_nil.symm, ansiSubRef_esc_nil.symm, ?_⟩
      intro acc hacc
      show '\x1b' :: '[' :: acc.reverse = _
      rw [List.append_nil]
      rw [ansiSubRef_bracket_fail _ (by
        rw [List.dropWhile_eq_nil_iff.mpr (fun x hx => hacc x (List.mem_reverse.mp hx))]
        intro r2 h
        exact List.noConfusion h)]
      have := ansiSubRef_append_of_ne acc.reverse []
        (fun x hx => ansiClass_ne_esc (hacc x (List.mem_reverse.mp hx)))
      rw [List.append_nil] at this
      rw [this, ansiSubRef_nil, List.append_nil]
    | cons c cs =>
      have hcs : cs.length ≤ n := by
        simp only [List.length_cons] at hl
        omega
      obtain ⟨ihN, ihE, ihB⟩ := ih cs hcs
      refine ⟨?_, ?_, ?_⟩
      · by_cases hc : c = '\x1b'
        · subst hc
          simp only [ansiRun, if_true, eq_self_iff_true]
          rw [ihE]
        · simp only [ansiRun, if_neg hc]
          rw [ihN, ansiSubRef_cons_ne c cs hc]
      · by_cases hbr : c = '['
        · subst hbr
          simp only [ansiRun, if_true, eq_self_iff_true]
          have := ihB [] (by simp)
          simpa using this
        · by_cases hesc : c = '\x1b'
          · subst hesc
            simp only [ansiRun, if_neg hbr, if_true, eq_self_iff_true]
            rw [ihE, ansiSubRef_esc_cons_ne _ _ hbr]
          · simp only [ansiRun, if_neg hbr, if_neg hesc]
            rw [ihN, ansiSubRef_esc_cons_ne _ _ hbr, ansiSubRef_cons_ne _ _ hesc]
      · intro acc hacc
        by_cases hcl : ansiClass c
        · simp only [ansiRun, if_pos hcl]
          have := ihB (c :: acc) (by
            intro x hx
            rcases List.mem_cons.mp hx with h | h
            · subst h; exact hcl
            · exact hacc x h)
          rw [this]
          simp [List.reverse_cons, List.append_assoc]
        · have hdw : List.dropWhile ansiClass (acc.reverse ++ c :: cs) = c :: cs := by
            rw [dropWhile_append_of_all _ _ _
              (fun x hx => hacc x (List.mem_reverse.mp hx))]
            exact List.dropWhile_cons_of_neg hcl
          have haccne : ∀ x ∈ acc.reverse, ¬ x = '\x1b' :=
            fun x hx => ansiClass_ne_esc (hacc x (List.mem_reverse.mp hx))
          by_cases hm : c = 'm'
          · subst hm
            simp only [ansiRun, if_neg hcl, if_true, eq_self_iff_true]
            rw [ihN, ansiSubRef_bracket_m _ cs (by rw [hdw])]
          · have hfail : ∀ r2, (acc.reverse ++ c :: cs).dropWhile ansiClass ≠ 'm' :: r2 := by
              intro r2 h
              rw [hdw] at h
              exact hm (List.cons.inj h).1
            by_cases hesc : c = '\x1b'
            · subst hesc
              simp only [ansiRun, if_neg hcl, if_neg (by decide : ¬('\x1b' : Char) = 'm'),
                if_true, if_false, eq_self_iff_true]
              rw [ihE, ansiSubRef_bracket_fail _ hfail,
                ansiSubRef_append_of_ne _ _ haccne]
              simp
            · simp only [ansiRun, if_neg hcl, if_neg hm, if_neg hesc]
              rw [ihN, ansiSubRef_bracket_fail _ hfail,
                ansiSubRef_append_of_ne _ _ haccne,
                ansiSubRef_cons_ne _ _ hesc]
              simp

/-- The executable scanner computes exactly the direct regex reading. -/
theorem stripAnsi_eq_ansiSubRef (l : List Char) : stripAnsi l = ansiSubRef l :=
  (ansiRun_agrees l.length l le_rfl).1

theorem containsSub_nil_needle : ∀ l : List Char, containsSub [] l = true
  | [] => rfl
  | _ :: cs => by
    simp [containsSub, containsSub_nil_needle cs, List.isPrefixOf]

theorem contains_dash_not_digit (s : String) (h : s.data.contains '-' = true) :
    isDigitStr s = false := by
  have hmem : '-' ∈ s.data := by
    have := List.elem_iff.mp h
    simpa using this
  have hdig : s.data.all Char.isDigit = false := by
    cases hall : s.data.all Char.isDigit
    · rfl
    · exact absurd (List.all_eq_true.mp hall '-' hmem) (by decide)
  simp [isDigitStr, hdig]

theorem take_min_length (l : List α) (n : Nat) : l.take (min n l.length) = l.take n := by
  rcases Nat.le_total n l.length with h | h
  · rw [Nat.min_eq_left h]
  · rw [Nat.min_eq_right h, List.take_length, List.take_of_length_le h]

/-! ### Claim theorems -/

/-- C6: `filterByLevel(records, ALL)` returns the input unchanged — same
elements, same order, full set — including on the empty list. -/
theorem c6_filter_all_identity (logs : List LogRec) :
    filterLogsByLevel logs LogLevel.all = logs := by
  simp [filterLogsByLevel]

/-- C5: for each concrete level among DEBUG, INFO, WARNING, ERROR,
`filterByLevel` returns exactly the order-preserving subsequence of records
whose `level` field, compared verbatim, equals the level's canonical name;
records with a differing-case or missing `level` are excluded. -/
theorem c5_filter_level_spec (logs : List LogRec) (L : LogLevel)
    (hL : L = LogLevel.debug ∨ L = LogLevel.info ∨ L = LogLevel.warning ∨
      L = LogLevel.error) :
    filterLogsByLevel logs L = logs.filter (fun r => r.level == some L.value) ∧
    List.Sublist (filterLogsByLevel logs L) logs ∧
    (∀ r ∈ logs, r.level = some L.value → r ∈ filterLogsByLevel logs L) ∧
    (∀ r ∈ filterLogsByLevel logs L, r ∈ logs ∧ r.level = some L.value) := by
  have hne : L ≠ LogLevel.all := by
    rcases hL with h | h | h | h <;> subst h <;> decide
  have heq : filterLogsByLevel logs L = logs.filter (fun r => r.level == some L.value) := by
    simp [filterLogsByLevel, hne]
  refine ⟨heq, ?_, ?_, ?_⟩
  · rw [heq]
    exact List.filter_sublist _
  · intro r hr hlvl
    rw [heq]
    exact List.mem_filter.mpr ⟨hr, by simp [hlvl]⟩
  · intro r hr
    rw [heq] at hr
    have hm := List.mem_filter.mp hr
    exact ⟨hm.1, by simpa using hm.2⟩

/-- C5 witness: filtering four mixed records (verbatim ERROR, lowercase
error, missing level, verbatim ERROR) at level ERROR keeps exactly the two
verbatim ones, in order. -/
theorem c5_filter_level_witness :
    filterLogsByLevel
      [⟨some "ERROR", some "a"⟩, ⟨some "error", none⟩, ⟨none, some "b"⟩,
        ⟨some "ERROR", none⟩] LogLevel.error =
      [⟨some "ERROR", some "a"⟩, ⟨some "ERROR", none⟩] :=
  ((c5_filter_level_spec _ LogLevel.error
      (Or.inr (Or.inr (Or.inr rfl)))).1).trans (by decide)

/-- C7: keyword search keeps exactly the records whose raw `data`
(lowercased) contains the lowercased keyword as a substring, preserving
order with no deduplication; the empty keyword matches every record. -/
theorem c7_search_spec (logs : List LogRec) (kw : String) :
    searchLogs logs kw =
      logs.filter (fun r => containsSub (pyLower kw).data (pyLower (r.data.getD "")).data) ∧
    searchLogs logs "" = logs ∧
    List.Sublist (searchLogs logs kw) logs := by
  refine ⟨rfl, ?_, List.filter_sublist _⟩
  show List.filter _ logs = logs
  exact List.filter_eq_self.mpr (fun a _ => containsSub_nil_needle _)

/-- C9: formatting is total with the documented defaults: a record with no
`data` key is formatted like one with empty data, and a record with no
`level` key is rendered with the default block-quote style. -/
theorem c9_format_total_defaults (l d : Option String) :
    formatLog ⟨l, none⟩ = formatLog ⟨l, some ""⟩ ∧
    formatLog ⟨none, d⟩ = "> " ++ pyRstrip (stripAnsiStr (d.getD "")) := by
  constructor
  · rfl
  · simp only [formatLog]
    rw [if_neg (by decide), if_neg (by decide), if_neg (by decide)]

/-- C8: `from_input` is total: empty input gives ALL; otherwise the
uppercased input is compared for exact equality with the five level names,
and any other input gives the invalid sentinel `none`, distinct from every
level. -/
theorem c8_fromInput_spec (v : String) :
    LogLevel.fromInput "" = some LogLevel.all ∧
    (v ≠ "" → pyUpper v = "ALL" → LogLevel.fromInput v = some LogLevel.all) ∧
    (v ≠ "" → pyUpper v = "DEBUG" → LogLevel.fromInput v = some LogLevel.debug) ∧
    (v ≠ "" → pyUpper v = "INFO" → LogLevel.fromInput v = some LogLevel.info) ∧
    (v ≠ "" → pyUpper v = "WARNING" → LogLevel.fromInput v = some LogLevel.warning) ∧
    (v ≠ "" → pyUpper v = "ERROR" → LogLevel.fromInput v = some LogLevel.error) ∧
    (v ≠ "" → pyUpper v ∉ (["ALL", "DEBUG", "INFO", "WARNING", "ERROR"] : List String) →
      LogLevel.fromInput v = none) ∧
    (∀ L : LogLevel, (none : Option LogLevel) ≠ some L) := by
  refine ⟨by simp [LogLevel.fromInput], ?_, ?_, ?_, ?_, ?_, ?_,
    fun L h => Option.noConfusion h⟩
  · intro hne hup
    simp [LogLevel.fromInput, hne, LogLevel.members, LogLevel.value, hup, List.find?]
  · intro hne hup
    simp [LogLevel.fromInput, hne, LogLevel.members, LogLevel.value, hup, List.find?]
  · intro hne hup
    simp [LogLevel.fromInput, hne, LogLevel.members, LogLevel.value, hup, List.find?]
  · intro hne hup
    simp [LogLevel.fromInput, hne, LogLevel.members, LogLevel.value, hup, List.find?]
  · intro hne hup
    simp [LogLevel.fromInput, hne, LogLevel.members, LogLevel.value, hup, List.find?]
  · intro hne hnot
    have h1 : ("ALL" == pyUpper v) = false :=
      beq_eq_false_iff_ne.mpr (fun h => hnot (by rw [← h]; simp))
    have h2 : ("DEBUG" == pyUpper v) = false :=
      beq_eq_false_iff_ne.mpr (fun h => hnot (by rw [← h]; simp))
    have h3 : ("INFO" == pyUpper v) = false :=
      beq_eq_false_iff_ne.mpr (fun h => hnot (by rw [← h]; simp))
    have h4 : ("WARNING" == pyUpper v) = false :=
      beq_eq_false_iff_ne.mpr (fun h => hnot (by rw [← h]; simp))
    have h5 : ("ERROR" == pyUpper v) = false :=
      beq_eq_false_iff_ne.mpr (fun h => hnot (by rw [← h]; simp))
    simp [LogLevel.fromInput, hne, LogLevel.members, LogLevel.value, List.find?,
      h1, h2, h3, h4, h5]

/-- C8 witness: the whitespace-padded level name `" INFO"` is not
normalized and yields the invalid sentinel. -/
theorem c8_fromInput_witness : LogLevel.fromInput " INFO" = none :=
  (c8_fromInput_spec " INFO").2.2.2.2.2.2.1 (by decide) (by decide)

/-- C1 counterexample: on a one-record list, the spec string `"0"` returns
the whole list (Python `logs[-0:]` is `logs[0:]`), not the empty sequence
the claim requires. -/
theorem c1_slice_zero_counterexample :
    sliceLogs ([0] : List Nat) "0" 5 = [0] ∧
    sliceLogs ([0] : List Nat) "0" 5 ≠ [] := by
  decide

/-- C1 (amended): for a trimmed plain digit spec `N`, slicing returns the
last `N` records when `N ≥ 1` (the whole list when `N > total`), but for
`N = 0` it returns the whole list, because `logs[-0:]` is `logs[0:]`. -/
theorem c1_slice_digit_amended {α : Type} (logs : List α) (s : String) (dl : Nat)
    (hd : isDigitStr (pyStrip s) = true) :
    (0 < strToNat (pyStrip s) →
      sliceLogs logs s dl = logs.drop (logs.length - strToNat (pyStrip s))) ∧
    (strToNat (pyStrip s) = 0 → sliceLogs logs s dl = logs) := by
  have hne : s ≠ "" := by
    intro h
    subst h
    exact absurd hd (by decide)
  have hmain : sliceLogs logs s dl = pyNegSlice logs (strToNat (pyStrip s)) := by
    simp [sliceLogs, hne, hd]
  constructor
  · intro h0
    rw [hmain]
    unfold pyNegSlice
    rw [if_neg (Nat.pos_iff_ne_zero.mp h0)]
  · intro h0
    rw [hmain]
    simp [pyNegSlice, h0]

/-- C1 witness: the spec `"3"` on a five-record list returns the last
three records. -/
theorem c1_slice_digit_witness :
    sliceLogs ([10, 20, 30, 40, 50] : List Nat) "3" 7 = [30, 40, 50] :=
  ((c1_slice_digit_amended [10, 20, 30, 40, 50] "3" 7 (by decide)).1
    (by decide)).trans (by decide)

/-- C3 counterexample: `"1-2-3"` is neither empty, nor a digit string, nor
a single-`-` range, yet it does not fall back to the last `defaultLimit`
records: on `[0, 1]` with `defaultLimit = 1` the code returns the whole
list `[0, 1]`, not the last record `[1]`. -/
theorem c3_slice_malformed_counterexample :
    sliceLogs ([0, 1] : List Nat) "1-2-3" 1 = [0, 1] ∧
    ([0, 1] : List Nat).drop (([0, 1] : List Nat).length - 1) = [1] ∧
    sliceLogs ([0, 1] : List Nat) "1-2-3" 1 ≠ [1] := by
  decide

/-- C3 (amended): the empty spec returns the last `defaultLimit` records,
and a malformed spec falls back to the same behaviour only when it contains
no `-` at all after trimming; any spec containing a `-` is handled by the
range branch instead (split at the first `-`).  Precondition: `defaultLimit`
is positive. -/
theorem c3_slice_default_amended {α : Type} (logs : List α) (s : String) (dl : Nat)
    (hdl : 0 < dl) :
    (s = "" → sliceLogs logs s dl = logs.drop (logs.length - dl)) ∧
    (s ≠ "" → isDigitStr (pyStrip s) = false → (pyStrip s).data.contains '-' = false →
      sliceLogs logs s dl = logs.drop (logs.length - dl)) := by
  have hdlne : dl ≠ 0 := Nat.pos_iff_ne_zero.mp hdl
  constructor
  · intro h
    subst h
    simp [sliceLogs, pyNegSlice, hdlne]
  · intro hne hd hdash
    have hmem : '-' ∉ (pyStrip s).data := by
      simpa using hdash
    simp [sliceLogs, hne, hd, hmem, pyNegSlice, hdlne]

/-- C3 witness: the non-empty, non-numeric, dash-free spec `"abc"` falls
back to the last two records when `defaultLimit = 2`. -/
theorem c3_slice_default_witness :
    sliceLogs ([0, 1, 2] : List Nat) "abc" 2 = [1, 2] :=
  ((c3_slice_default_amended [0, 1, 2] "abc" 2 (by decide)).2
    (by decide) (by decide) (by decide)).trans (by decide)

/-- C10: a non-empty spec is interpreted only through its trimmed form —
two non-empty specs with equal trims slice identically — and a non-empty
spec that trims to nothing (whitespace-only) behaves like the empty spec,
i.e. the default-limit fallback. -/
theorem c10_slice_strip_spec {α : Type} (logs : List α) (dl : Nat) (s t : String)
    (hs : s ≠ "") (ht : t ≠ "") (hst : pyStrip s = pyStrip t) :
    sliceLogs logs s dl = sliceLogs logs t dl ∧
    (pyStrip s = "" → sliceLogs logs s dl = sliceLogs logs "" dl) := by
  constructor
  · simp only [sliceLogs]
    rw [if_neg hs, if_neg ht, hst]
  · intro h0
    simp only [sliceLogs]
    rw [if_neg hs, h0]
    rw [if_neg (by decide), if_neg (by decide)]
    simp

/-- C10 witness: the padded count `" 5 "` slices exactly like `"5"`. -/
theorem c10_slice_strip_witness :
    sliceLogs ([0, 1, 2, 3, 4, 5, 6, 7, 8, 9] : List Nat) " 5 " 3 =
      sliceLogs ([0, 1, 2, 3, 4, 5, 6, 7, 8, 9] : List Nat) "5" 3 :=
  (c10_slice_strip_spec [0, 1, 2, 3, 4, 5, 6, 7, 8, 9] 3 " 5 " "5"
    (by decide) (by decide) (by decide)).1

/-- C2: a spec containing a `-` is split at the first `-` into `left` and
`right`; slicing returns `records[start:end]` with `start = int(left) - 1`
if `left` is a digit string else `0` (clamped to at least `0`) and
`end = int(right)` if `right` is a digit string else `total` (clamped to at
most `total`); the result is empty whenever `start ≥ end`, and a spec
`"-N"` (empty left, digit right) returns the FIRST `N` records. -/
theorem c2_slice_range_spec {α : Type} (logs : List α) (s : String) (dl : Nat)
    (start stop : Nat)
    (hdash : (pyStrip s).data.contains '-' = true)
    (hstart : start = if isDigitStr (splitOnceDash (pyStrip s)).1 = true
      then strToNat (splitOnceDash (pyStrip s)).1 - 1 else 0)
    (hstop : stop = min (if isDigitStr (splitOnceDash (pyStrip s)).2 = true
      then strToNat (splitOnceDash (pyStrip s)).2 else logs.length) logs.length) :
    sliceLogs logs s dl = (logs.drop start).take (stop - start) ∧
    (stop ≤ start → sliceLogs logs s dl = []) ∧
    ((splitOnceDash (pyStrip s)).1 = "" →
      isDigitStr (splitOnceDash (pyStrip s)).2 = true →
      sliceLogs logs s dl = logs.take (strToNat (splitOnceDash (pyStrip s)).2)) := by
  have hne : s ≠ "" := by
    intro h
    subst h
    exact absurd hdash (by decide)
  have hnd : isDigitStr (pyStrip s) = false := contains_dash_not_digit _ hdash
  have e1 : (max (if isDigitStr (splitOnceDash (pyStrip s)).1 = true
      then (strToNat (splitOnceDash (pyStrip s)).1 : Int) - 1 else 0) 0).toNat = start := by
    rw [hstart]
    by_cases h : isDigitStr (splitOnceDash (pyStrip s)).1 = true <;> simp [h] <;> omega
  have e2 : (min (if isDigitStr (splitOnceDash (pyStrip s)).2 = true
      then (strToNat (splitOnceDash (pyStrip s)).2 : Int) else (logs.length : Int))
      (logs.length : Int)).toNat = stop := by
    rw [hstop]
    by_cases h : isDigitStr (splitOnceDash (pyStrip s)).2 = true <;> simp [h] <;> omega
  have hmain : sliceLogs logs s dl = (logs.drop start).take (stop - start) := by
    simp only [sliceLogs]
    rw [if_neg hne, if_neg (by simp [hnd]), if_pos hdash, e1, e2]
  refine ⟨hmain, ?_, ?_⟩
  · intro h
    rw [hmain, Nat.sub_eq_zero_of_le h, List.take_zero]
  · intro h1 h2
    have hd1 : isDigitStr (splitOnceDash (pyStrip s)).1 = false := by
      rw [h1]
      decide
    have hs0 : start = 0 := by
      rw [hstart, hd1]
      simp
    have hs2 : stop = min (strToNat (splitOnceDash (pyStrip s)).2) logs.length := by
      rw [hstop, h2]
      simp
    rw [hmain, hs0, hs2, List.drop_zero, Nat.sub_zero, take_min_length]

/-- C2 witness: the range spec `"2-5"` on a ten-record list returns the
four records at 0-based indices 1 through 4. -/
theorem c2_slice_range_witness :
    sliceLogs ([0, 1, 2, 3, 4, 5, 6, 7, 8, 9] : List Nat) "2-5" 3 = [1, 2, 3, 4] :=
  ((c2_slice_range_spec [0, 1, 2, 3, 4, 5, 6, 7, 8, 9] "2-5" 3 1 5
    (by decide) (by decide) (by decide)).1).trans (by decide)

/-- C4: formatting strips the ANSI escape sequences and trailing
whitespace from `data`, then dispatches on the uppercased level: ERROR is
wrapped in a fenced code block, WARNING in bold markers, DEBUG is returned
unchanged, and every other level (including INFO and unrecognized ones) is
prefixed with a block-quote marker. -/
theorem c4_format_spec (rec : LogRec) :
    (pyUpper (rec.level.getD "UNKNOWN") = "ERROR" →
      formatLog rec = "```\n" ++ pyRstrip (stripAnsiStr (rec.data.getD "")) ++ "\n```") ∧
    (pyUpper (rec.level.getD "UNKNOWN") = "WARNING" →
      formatLog rec = "**" ++ pyRstrip (stripAnsiStr (rec.data.getD "")) ++ "**") ∧
    (pyUpper (rec.level.getD "UNKNOWN") = "DEBUG" →
      formatLog rec = pyRstrip (stripAnsiStr (rec.data.getD ""))) ∧
    (pyUpper (rec.level.getD "UNKNOWN") ≠ "ERROR" →
      pyUpper (rec.level.getD "UNKNOWN") ≠ "WARNING" →
      pyUpper (rec.level.getD "UNKNOWN") ≠ "DEBUG" →
      formatLog rec = "> " ++ pyRstrip (stripAnsiStr (rec.data.getD ""))) := by
  refine ⟨?_, ?_, ?_, ?_⟩
  · intro h
    simp [formatLog, LogLevel.value, h]
  · intro h
    simp [formatLog, LogLevel.value, h]
  · intro h
    simp [formatLog, LogLevel.value, h]
  · intro h1 h2 h3
    simp [formatLog, LogLevel.value, h1, h2, h3]

/-- C4 witness: level ERROR with data `"\x1b[31mboom\x1b[0m"` yields a
fenced block containing exactly `boom`, and level WARNING with data
`"careful "` yields bold `careful` with the trailing space trimmed. -/
theorem c4_format_witness :
    formatLog ⟨some "ERROR", some "\x1b[31mboom\x1b[0m"⟩ = "```\nboom\n```" ∧
    formatLog ⟨some "WARNING", some "careful "⟩ = "**careful**" :=
  ⟨((c4_format_spec ⟨some "ERROR", some "\x1b[31mboom\x1b[0m"⟩).1 (by decide)).trans
      (by decide),
    ((c4_format_spec ⟨some "WARNING", some "careful "⟩).2.1 (by decide)).trans
      (by decide)⟩

end AstrbotLogger
